import Mathlib

/-!
Verification of the per-region memory-management core of the runtime in
`src/rt/region/region_api.h` (region state machine, GC scheduling, region
release) together with models of the three collector disciplines.

The concurrency controller (`RegionBase`, `open_region`, `close_region`,
`schedule_gc`, `region_release`, `task_inc`, `task_dec`) is translated
directly from `src/rt/region/region_api.h`.  The collector internals
(`RegionTrace::gc`, `RegionRc::incref/decref/gc_cycles`) are not part of the
source tree; those are modelled from the specification and marked as such.
-/

namespace VeronaGc

/-- The three concurrent states of a region
(`RegionBase::ConcurrentState` in `region_api.h`). -/
inductive ConcurrentState
  | Open
  | Closed
  | Collecting
  deriving DecidableEq

/-- Modulus of `size_t` arithmetic: `owners` is a `std::atomic<size_t>`. -/
def usizeMod : Nat := 2 ^ 64

/-- Shared per-region state, from `RegionBase` in `region_api.h`:
`state` initialised to `Closed`, `owners` to `1`, `isAlive` to `true`. -/
structure RegionBase where
  state : ConcurrentState
  owners : Nat
  isAlive : Bool
  deriving DecidableEq

/-- `RegionBase::task_dec`: `owners.fetch_sub(1)`; returns `true` iff the old
value was `1` (the caller then physically frees the region).  The subtraction
wraps like `size_t`. -/
def RegionBase.task_dec (r : RegionBase) : RegionBase × Bool :=
  ({ r with owners := (r.owners + (usizeMod - 1)) % usizeMod }, r.owners == 1)

/-- `RegionBase::task_inc`: `owners.fetch_add(1)`. -/
def RegionBase.task_inc (r : RegionBase) : RegionBase :=
  { r with owners := (r.owners + 1) % usizeMod }

/-- The `Closed -> Open` compare-exchange of `open_region(r, forWork=true)`.
Returns the new state on success; `none` models the spin in the source
(the CAS is retried with an architecture pause until the state is `Closed`). -/
def open_work_cas : ConcurrentState → Option ConcurrentState
  | .Closed => some .Open
  | .Open => none
  | .Collecting => none

/-- The one-shot `Closed -> Collecting` compare-exchange of
`open_region(r, forWork=false)`.  Returns the state after the CAS and whether
it succeeded: on `Collecting` or `Open` nothing is written and the call fails. -/
def open_gc_cas : ConcurrentState → ConcurrentState × Bool
  | .Closed => (.Collecting, true)
  | .Open => (.Open, false)
  | .Collecting => (.Collecting, false)

/-- A thread-local region frame (`RegionContext::RegionFrame`), reduced to the
entry-point identity; the frame stack is a list with its top at the head. -/
structure RegionFrame where
  entry : Nat
  deriving DecidableEq

/-- `open_region(r, forWork=false)`: performs the one-shot CAS; on success
pushes a frame on the thread-local stack and returns `true`, on failure
returns `false` leaving both the region and the stack untouched. -/
def open_region_gc (r : RegionBase) (e : Nat) (frames : List RegionFrame) :
    RegionBase × List RegionFrame × Bool :=
  match open_gc_cas r.state with
  | (st, true) => ({ r with state := st }, ⟨e⟩ :: frames, true)
  | (_, false) => (r, frames, false)

/-- The compare-exchange of `close_region(forWork)`: `Open -> Closed` when
closing after work, `Collecting -> Closed` when a GC task finishes.  The
source asserts that the CAS succeeded; `none` is the assertion-failure
branch. -/
def close_region_cas (forWork : Bool) (st : ConcurrentState) :
    Option ConcurrentState :=
  if forWork then
    if st = ConcurrentState.Open then some ConcurrentState.Closed else none
  else
    if st = ConcurrentState.Collecting then some ConcurrentState.Closed else none

/-- `schedule_gc(entry)` from `region_api.h`, at the granularity of its effect
on the region and on the scheduler queue (`pending` counts submitted GC tasks
that have not yet run): if `isAlive` is `false` the function returns at once;
otherwise it increments `owners` (`task_inc`) and submits one GC closure. -/
def schedule_gc (r : RegionBase) (pending : Nat) : RegionBase × Nat :=
  if r.isAlive then (r.task_inc, pending + 1) else (r, pending)

/-- Result of running one scheduled GC closure: the region afterwards, whether
`region_collect` ran, and whether the closure performed
`region_physical_release`. -/
structure GcTaskResult where
  reg : RegionBase
  collected : Bool
  releasedRegion : Bool
  deriving DecidableEq

/-- The GC closure built in `schedule_gc` (`gc_task` in `region_api.h`),
run without interference from other threads:
if `isAlive` it opens the region for GC; when that CAS fails it returns
at once (the source's early `return`, which skips `task_dec`); when it
succeeds it runs `region_collect`, closes the region
(`Collecting -> Closed`), and falls through to `task_dec`.  If `isAlive` is
`false` it skips straight to `task_dec`.  Whenever `task_dec` reports the old
count was `1`, the closure calls `region_physical_release`. -/
def run_gc_task (r : RegionBase) : GcTaskResult :=
  if r.isAlive then
    match open_gc_cas r.state with
    | (_, false) => ⟨r, false, false⟩
    | (_, true) =>
      let r1 := { r with state := ConcurrentState.Closed }
      let p := r1.task_dec
      ⟨p.1, true, p.2⟩
  else
    let p := r.task_dec
    ⟨p.1, false, p.2⟩

/-- `region_release(r)` from `region_api.h`: stores `isAlive := false`, then
`task_dec`; if the old owner count was `1` it performs the physical release
(reported in the second component). -/
def region_release (r : RegionBase) : RegionBase × Bool :=
  ({ r with isAlive := false }.task_dec)

/-- `close_region(forWork)` at region granularity: the asserted CAS, then
(for `forWork = true`) `schedule_gc`.  `none` is the assertion failure. -/
def close_region (r : RegionBase) (pending : Nat) (forWork : Bool) :
    Option (RegionBase × Nat) :=
  match close_region_cas forWork r.state with
  | none => none
  | some st =>
    if forWork then some (schedule_gc { r with state := st } pending)
    else some ({ r with state := st }, pending)

/-- Global view of one region used by one mutator thread and the scheduler:
whether the mutator currently holds the region open, whether `region_release`
has been called, how many scheduled GC closures have not yet run, and how many
times `region_physical_release` has been performed. -/
structure Sys where
  reg : RegionBase
  mutOpen : Bool
  released : Bool
  pending : Nat
  physReleases : Nat
  deriving DecidableEq

/-- The atomic events of the system: the mutator opens for work, closes after
work, or calls `region_release`; or the scheduler runs one pending GC
closure. -/
inductive Cmd
  | openWork
  | closeWork
  | release
  | runTask
  deriving DecidableEq

/-- One event.  Disabled events (closing a region that is not open, running a
task when none is pending, opening or releasing after `region_release`) leave
the state unchanged. -/
def stepCmd (s : Sys) : Cmd → Sys
  | .openWork =>
    if s.mutOpen ∨ s.released then s
    else
      match open_work_cas s.reg.state with
      | some st => { s with reg := { s.reg with state := st }, mutOpen := true }
      | none => s
  | .closeWork =>
    if s.mutOpen then
      match close_region s.reg s.pending true with
      | some rp => { s with reg := rp.1, pending := rp.2, mutOpen := false }
      | none => s
    else s
  | .release =>
    if s.mutOpen ∨ s.released then s
    else
      let p := region_release s.reg
      { s with reg := p.1, released := true,
               physReleases := s.physReleases + (if p.2 then 1 else 0) }
  | .runTask =>
    if s.pending = 0 then s
    else
      let t := run_gc_task s.reg
      { s with reg := t.reg, pending := s.pending - 1,
               physReleases := s.physReleases + (if t.releasedRegion then 1 else 0) }

/-- Run a sequence of events. -/
def exec (s : Sys) (cmds : List Cmd) : Sys := cmds.foldl stepCmd s

/-- A freshly created region: `state = Closed`, `owners = 1`,
`isAlive = true`; the mutator does not hold it open, no GC task is pending,
nothing has been physically released. -/
def initSys : Sys :=
  ⟨⟨ConcurrentState.Closed, 1, true⟩, false, false, 0, 0⟩

/-- The schedule on which physical release is lost: the mutator opens and
closes the region (scheduling GC task 1), opens it again, the scheduler runs
task 1 while the region is open for work (the open-for-GC CAS fails and the
closure returns without `task_dec`), the mutator closes (scheduling task 2)
and calls `region_release`, and the scheduler runs task 2. -/
def leakTrace : List Cmd :=
  [Cmd.openWork, Cmd.closeWork, Cmd.openWork, Cmd.runTask,
   Cmd.closeWork, Cmd.release, Cmd.runTask]

/-- The system state after `leakTrace`. -/
def leakFinal : Sys := exec initSys leakTrace

lemma leakFinal_fixed : ∀ c : Cmd, stepCmd leakFinal c = leakFinal := by
  intro c
  cases c <;> decide

/-- C1: the claim that every region is physically released exactly once fails
on the code.  After `leakTrace` the region has been logically released
(`isAlive = false`), no GC task is pending, yet `owners` is stuck at `1`
(the GC task whose open-for-GC CAS failed returned without `task_dec`), so
`region_physical_release` has run zero times and can never run: every further
schedule leaves the count of physical releases at zero. -/
theorem c1_physical_release_lost :
    leakFinal.released = true ∧ leakFinal.pending = 0 ∧
      leakFinal.reg.isAlive = false ∧ leakFinal.reg.owners = 1 ∧
      leakFinal.physReleases = 0 ∧
      ∀ more : List Cmd, (exec leakFinal more).physReleases = 0 := by
  refine ⟨by decide, by decide, by decide, by decide, by decide, ?_⟩
  have hfix : ∀ more : List Cmd, exec leakFinal more = leakFinal := by
    intro more
    induction more with
    | nil => rfl
    | cons c cs ih =>
      show exec (stepCmd leakFinal c) cs = leakFinal
      rw [leakFinal_fixed c]
      exact ih
  intro more
  rw [hfix more]
  decide

/-- A region that is alive and currently open for work by a mutator, with one
scheduled GC task outstanding (`owners = 2`: the initial owner plus the
task's reference). -/
def busyRegion : RegionBase := ⟨ConcurrentState.Open, 2, true⟩

/-- C2: the claim fails on the code at step (e).  When the GC closure runs
while the region is open for work (`isAlive = true`, `state = Open`), the
open-for-GC CAS fails and the closure returns immediately: it does not
decrement `owners` (they stay at `2`) and performs no release, whereas the
claim says the closure decrements `owners` on every run. -/
theorem c2_gc_closure_skips_task_dec :
    run_gc_task busyRegion = ⟨busyRegion, false, false⟩ := by decide

/-- C3: `open_region(r, forWork=false)` is one-shot.  If the region's state is
`Open` or `Collecting` the call returns `false` leaving the region and the
thread-local frame stack untouched, and the GC task that receives this
failure only consumes its queue slot: `pending` drops by one and nothing is
re-queued. -/
theorem c3_open_gc_one_shot (r : RegionBase) (e : Nat)
    (frames : List RegionFrame)
    (h : r.state = ConcurrentState.Open ∨ r.state = ConcurrentState.Collecting)
    (s : Sys) (hp : s.pending ≠ 0) (ha : s.reg.isAlive = true)
    (hst : s.reg.state = ConcurrentState.Open) :
    open_region_gc r e frames = (r, frames, false) ∧
      stepCmd s Cmd.runTask = { s with pending := s.pending - 1 } := by
  constructor
  · rcases h with h | h <;> simp [open_region_gc, open_gc_cas, h]
  · simp [stepCmd, hp, run_gc_task, ha, open_gc_cas, hst]

theorem c3_open_gc_one_shot_witness :
    (busyRegion.state = ConcurrentState.Open ∨
        busyRegion.state = ConcurrentState.Collecting) ∧
      (open_region_gc busyRegion 0 [] = (busyRegion, [], false) ∧
        stepCmd ⟨busyRegion, true, false, 1, 0⟩ Cmd.runTask =
          { (⟨busyRegion, true, false, 1, 0⟩ : Sys) with pending := 1 - 1 }) :=
  ⟨by decide,
    c3_open_gc_one_shot busyRegion 0 [] (by decide)
      ⟨busyRegion, true, false, 1, 0⟩ (by decide) (by decide) (by decide)⟩

/-- C7: the compare-exchanges in `close_region` cannot hit their
assertion-failure branch when the thread previously opened the region in the
corresponding mode: opening for work leaves the state `Open`, and then the
`Open -> Closed` CAS succeeds; opening for GC leaves the state `Collecting`,
and then the `Collecting -> Closed` CAS succeeds. -/
theorem c7_close_cas_succeeds (st : ConcurrentState) :
    (st = ConcurrentState.Open →
        close_region_cas true st = some ConcurrentState.Closed) ∧
      (st = ConcurrentState.Collecting →
        close_region_cas false st = some ConcurrentState.Closed) := by
  constructor
  · intro h; simp [close_region_cas, h]
  · intro h
    subst h
    simp [close_region_cas]

theorem c7_close_cas_succeeds_witness :
    close_region_cas true ConcurrentState.Open = some ConcurrentState.Closed ∧
      close_region_cas false ConcurrentState.Collecting =
        some ConcurrentState.Closed :=
  ⟨(c7_close_cas_succeeds ConcurrentState.Open).1 rfl,
    (c7_close_cas_succeeds ConcurrentState.Collecting).2 rfl⟩

/-- C10: `schedule_gc` on a region whose `isAlive` flag is already `false`
returns without submitting a GC task and without touching the region: the
pending-task count and the whole region (state, owners, liveness) are
unchanged. -/
theorem c10_schedule_gc_dead_region (r : RegionBase) (p : Nat)
    (h : r.isAlive = false) : schedule_gc r p = (r, p) := by
  simp [schedule_gc, h]

theorem c10_schedule_gc_dead_region_witness :
    schedule_gc ⟨ConcurrentState.Closed, 1, false⟩ 0 =
      (⟨ConcurrentState.Closed, 1, false⟩, 0) :=
  c10_schedule_gc_dead_region ⟨ConcurrentState.Closed, 1, false⟩ 0 rfl

/-- The region disciplines (`RegionType` in `region_base.h`). -/
inductive RegionType
  | Trace
  | Arena
  | Rc
  deriving DecidableEq

/-- How an API call on the current region terminates: normally, by a failed
`assert` (debug abort), or by an unconditional `abort()`. -/
inductive ApiResult
  | ok
  | assertFailure
  | abortProc
  deriving DecidableEq

/-- `api::incref(o)` from `region_api.h`: asserts that the currently open
region has type `Rc` before delegating to `RegionRc::incref`. -/
def incref_dispatch (currentType : RegionType) : ApiResult :=
  if currentType = RegionType.Rc then ApiResult.ok else ApiResult.assertFailure

/-- `api::decref(o)` from `region_api.h`: asserts that the currently open
region has type `Rc` before delegating to `RegionRc::decref`. -/
def decref_dispatch (currentType : RegionType) : ApiResult :=
  if currentType = RegionType.Rc then ApiResult.ok else ApiResult.assertFailure

/-- `api::merge(r)` from `region_api.h`: asserts that the merged region and
the currently open region have the same type, then dispatches on that type;
`Trace` and `Arena` delegate to the collector's merge, `Rc` hits `abort()`. -/
def merge_dispatch (otherType currentType : RegionType) : ApiResult :=
  if otherType ≠ currentType then ApiResult.assertFailure
  else
    match otherType with
    | RegionType.Trace => ApiResult.ok
    | RegionType.Arena => ApiResult.ok
    | RegionType.Rc => ApiResult.abortProc

/-- C8: `incref`/`decref` on a non-Rc open region fail the type assertion;
`merge` with two regions of differing types fails its assertion; and `merge`
on Rc regions aborts unconditionally. -/
theorem c8_api_type_errors :
    (∀ t : RegionType, t ≠ RegionType.Rc →
        incref_dispatch t = ApiResult.assertFailure ∧
          decref_dispatch t = ApiResult.assertFailure) ∧
      (∀ t u : RegionType, t ≠ u →
        merge_dispatch t u = ApiResult.assertFailure) ∧
      merge_dispatch RegionType.Rc RegionType.Rc = ApiResult.abortProc := by
  refine ⟨?_, ?_, rfl⟩
  · intro t ht
    constructor <;> simp [incref_dispatch, decref_dispatch, ht]
  · intro t u htu
    simp [merge_dispatch, htu]

theorem c8_api_type_errors_witness :
    (incref_dispatch RegionType.Trace = ApiResult.assertFailure ∧
        decref_dispatch RegionType.Trace = ApiResult.assertFailure) ∧
      merge_dispatch RegionType.Trace RegionType.Arena =
        ApiResult.assertFailure ∧
      merge_dispatch RegionType.Rc RegionType.Rc = ApiResult.abortProc :=
  ⟨c8_api_type_errors.1 RegionType.Trace (by decide),
    c8_api_type_errors.2.1 RegionType.Trace RegionType.Arena (by decide),
    c8_api_type_errors.2.2⟩

/-- Modelled from the spec: one round of the mark phase of
`RegionTrace::gc`, whose implementation is not under the source tree.
Objects are identified by numbers; `succs o` is the list of objects pushed by
`o`'s descriptor `trace` callback.  One round adds to the marked set every
object referenced by an already-marked object. -/
def traceStep (succs : Nat → List Nat) (s : Finset ℕ) : Finset ℕ :=
  s ∪ s.biUnion fun o => (succs o).toFinset

/-- Modelled from the spec: the marked set of the mark phase, obtained by
running `traceStep` until it stabilises; `n` rounds starting from the roots
suffice whenever `n` bounds the size of the object universe. -/
def reachSet (succs : Nat → List Nat) (start : Finset ℕ) (n : Nat) : Finset ℕ :=
  (traceStep succs)^[n] start

lemma subset_traceStep (succs : Nat → List Nat) (s : Finset ℕ) :
    s ⊆ traceStep succs s := Finset.subset_union_left

lemma reachSet_succ (succs : Nat → List Nat) (start : Finset ℕ) (n : Nat) :
    reachSet succs start (n + 1) = traceStep succs (reachSet succs start n) :=
  Function.iterate_succ_apply' (traceStep succs) n start

lemma subset_reachSet (succs : Nat → List Nat) (start : Finset ℕ) :
    ∀ n, start ⊆ reachSet succs start n := by
  intro n
  induction n with
  | zero => exact Finset.Subset.refl start
  | succ n ih =>
    rw [reachSet_succ]
    exact ih.trans (subset_traceStep succs _)

lemma reachSet_subset_of_closed {succs : Nat → List Nat} {start U : Finset ℕ}
    (hstart : start ⊆ U) (hU : ∀ o ∈ U, ∀ c ∈ succs o, c ∈ U) :
    ∀ n, reachSet succs start n ⊆ U := by
  intro n
  induction n with
  | zero => exact hstart
  | succ n ih =>
    rw [reachSet_succ]
    intro x hx
    simp only [traceStep, Finset.mem_union, Finset.mem_biUnion,
      List.mem_toFinset] at hx
    rcases hx with h | ⟨b, hb, hxb⟩
    · exact ih h
    · exact hU b (ih hb) x hxb

lemma card_le_reachSet (succs : Nat → List Nat) (start : Finset ℕ) :
    ∀ k, (∀ i, i < k →
        traceStep succs (reachSet succs start i) ≠ reachSet succs start i) →
      start.card + k ≤ (reachSet succs start k).card := by
  intro k
  induction k with
  | zero => intro _; simp [reachSet]
  | succ k ih =>
    intro h
    have h1 := ih fun i hi => h i (Nat.lt_succ_of_lt hi)
    have hne := h k (Nat.lt_succ_self k)
    have hss : reachSet succs start k ⊂ traceStep succs (reachSet succs start k) :=
      Finset.ssubset_iff_subset_ne.2
        ⟨subset_traceStep succs _, fun he => hne he.symm⟩
    have h2 := Finset.card_lt_card hss
    rw [reachSet_succ]
    omega

lemma reachSet_stable (succs : Nat → List Nat) (start : Finset ℕ) (j : Nat)
    (hfix : traceStep succs (reachSet succs start j) = reachSet succs start j) :
    ∀ m, reachSet succs start (j + m) = reachSet succs start j := by
  intro m
  induction m with
  | zero => rfl
  | succ m ih =>
    have h : j + (m + 1) = (j + m) + 1 := by omega
    rw [h, reachSet_succ, ih, hfix]

lemma reachSet_fixpoint {succs : Nat → List Nat} {start U : Finset ℕ}
    (hne : start.Nonempty) (hstart : start ⊆ U)
    (hU : ∀ o ∈ U, ∀ c ∈ succs o, c ∈ U) :
    traceStep succs (reachSet succs start U.card) =
      reachSet succs start U.card := by
  by_contra hfx
  have hall : ∀ i, i ≤ U.card →
      traceStep succs (reachSet succs start i) ≠ reachSet succs start i := by
    intro i hi hfixi
    have hstab := reachSet_stable succs start i hfixi (U.card - i)
    rw [Nat.add_sub_cancel' hi] at hstab
    rw [hstab] at hfx
    exact hfx hfixi
  have h1 := card_le_reachSet succs start (U.card + 1) fun i hi => hall i (by omega)
  have h2 : (reachSet succs start (U.card + 1)).card ≤ U.card :=
    Finset.card_le_card (reachSet_subset_of_closed hstart hU (U.card + 1))
  have h3 : 1 ≤ start.card := Finset.card_pos.2 hne
  omega

/-- Reachability from the entry point along the objects pushed by the
descriptors' `trace` callbacks. -/
inductive Reaches (succs : Nat → List Nat) (root : Nat) : Nat → Prop
  | refl : Reaches succs root root
  | tail {b c : Nat} : Reaches succs root b → c ∈ succs b → Reaches succs root c

lemma reaches_of_mem_reachSet {succs : Nat → List Nat} {root : Nat} :
    ∀ n o, o ∈ reachSet succs {root} n → Reaches succs root o := by
  intro n
  induction n with
  | zero =>
    intro o ho
    have h : o = root := by simpa [reachSet] using ho
    exact h ▸ Reaches.refl
  | succ n ih =>
    intro o ho
    rw [reachSet_succ] at ho
    simp only [traceStep, Finset.mem_union, Finset.mem_biUnion,
      List.mem_toFinset] at ho
    rcases ho with h | ⟨b, hb, hob⟩
    · exact ih o h
    · exact Reaches.tail (ih b hb) hob

lemma mem_reachSet_of_reaches {succs : Nat → List Nat} {root : Nat}
    {U : Finset ℕ} (hroot : root ∈ U)
    (hU : ∀ o ∈ U, ∀ c ∈ succs o, c ∈ U) :
    ∀ {o}, Reaches succs root o → o ∈ reachSet succs {root} U.card := by
  intro o hr
  induction hr with
  | refl =>
    exact subset_reachSet succs {root} U.card (Finset.mem_singleton_self root)
  | tail hb hc ih =>
    have hfx := reachSet_fixpoint (Finset.singleton_nonempty root)
      (Finset.singleton_subset_iff.2 hroot) hU
    rw [← hfx]
    simp only [traceStep, Finset.mem_union, Finset.mem_biUnion,
      List.mem_toFinset]
    exact Or.inr ⟨_, ih, hc⟩

/-- Modelled from the spec: `RegionTrace::gc` (mark-sweep, implementation not
under the source tree).  The region holds the object list `objs` (the entry
point included); the mark phase computes the marked set from the entry point
and the sweep keeps exactly the marked objects, so `debug_size` after the
collection is the length of the returned list. -/
def region_gc_trace (objs : List Nat) (succs : Nat → List Nat)
    (root : Nat) : List Nat :=
  objs.filter fun o => decide (o ∈ reachSet succs {root} objs.toFinset.card)

/-- C4: for a trace region whose objects' `trace` edges stay inside the
region, the object count immediately after `region_collect` equals the number
of objects reachable from the entry point (the marked set is exactly the
`Reaches` relation), and `unreachable + reachable` equals the total object
count — with 64 grid nodes, `unreachable + reachable = 64`. -/
theorem c4_trace_collect_reachable (objs : List Nat) (succs : Nat → List Nat)
    (root : Nat) (hnd : objs.Nodup) (hroot : root ∈ objs)
    (hclosed : ∀ o ∈ objs, ∀ c ∈ succs o, c ∈ objs) :
    (region_gc_trace objs succs root).length
        = (reachSet succs {root} objs.toFinset.card).card ∧
      (∀ o, o ∈ reachSet succs {root} objs.toFinset.card ↔
        Reaches succs root o) ∧
      (objs.length - (reachSet succs {root} objs.toFinset.card).card)
          + (reachSet succs {root} objs.toFinset.card).card = objs.length := by
  have hUc : ∀ o ∈ objs.toFinset, ∀ c ∈ succs o, c ∈ objs.toFinset := by
    intro o ho c hc
    exact List.mem_toFinset.2 (hclosed o (List.mem_toFinset.1 ho) c hc)
  have hrootU : root ∈ objs.toFinset := List.mem_toFinset.2 hroot
  have hSU : reachSet succs {root} objs.toFinset.card ⊆ objs.toFinset :=
    reachSet_subset_of_closed (Finset.singleton_subset_iff.2 hrootU) hUc _
  have hcardS : (reachSet succs {root} objs.toFinset.card).card ≤ objs.length := by
    have := Finset.card_le_card hSU
    calc (reachSet succs {root} objs.toFinset.card).card
        ≤ objs.toFinset.card := this
      _ ≤ objs.length := List.toFinset_card_le objs
  refine ⟨?_, ?_, ?_⟩
  · have hndf : (region_gc_trace objs succs root).Nodup :=
      hnd.filter _
    have hto : (region_gc_trace objs succs root).toFinset
        = objs.toFinset ∩ reachSet succs {root} objs.toFinset.card := by
      rw [region_gc_trace, List.toFinset_filter]
      have : (objs.toFinset.filter fun o =>
          (decide (o ∈ reachSet succs {root} objs.toFinset.card) : Bool))
          = objs.toFinset.filter fun o =>
            o ∈ reachSet succs {root} objs.toFinset.card := by
        apply Finset.filter_congr
        intro x _
        simp
      rw [this, Finset.filter_mem_eq_inter]
    have hlen : (region_gc_trace objs succs root).toFinset.card
        = (region_gc_trace objs succs root).length :=
      List.toFinset_card_of_nodup hndf
    rw [← hlen, hto, Finset.inter_eq_right.2 hSU]
  · intro o
    constructor
    · exact reaches_of_mem_reachSet objs.toFinset.card o
    · exact fun h => mem_reachSet_of_reaches hrootU hUc h
  · omega

/-- A concrete three-node trace region for the witness: the entry point `0`
references `1`, and `2` is unreachable garbage. -/
def exSuccs : Nat → List Nat := fun o => if o = 0 then [1] else []

theorem c4_trace_collect_reachable_witness :
    ([0, 1, 2] : List Nat).Nodup ∧
      (region_gc_trace [0, 1, 2] exSuccs 0).length
          = (reachSet exSuccs {0} ([0, 1, 2] : List Nat).toFinset.card).card ∧
        (∀ o, o ∈ reachSet exSuccs {0} ([0, 1, 2] : List Nat).toFinset.card ↔
          Reaches exSuccs 0 o) ∧
        (([0, 1, 2] : List Nat).length
              - (reachSet exSuccs {0} ([0, 1, 2] : List Nat).toFinset.card).card)
            + (reachSet exSuccs {0} ([0, 1, 2] : List Nat).toFinset.card).card
          = ([0, 1, 2] : List Nat).length :=
  ⟨by decide,
    c4_trace_collect_reachable [0, 1, 2] exSuccs 0 (by decide) (by decide)
      (by decide)⟩

/-- Modelled from the spec: the state of an Rc region
(`RegionRc`, implementation not under the source tree).  `objs` is the
intrusive object list (entry point included, in allocation order), `counts`
the per-object reference counts, `fields` the out-edges currently stored in
each object's fields, and `lins` the suspicious-root stack of Lins's deferred
cycle collector. -/
structure RcState where
  objs : List Nat
  counts : Nat → Nat
  fields : Nat → List Nat
  lins : List Nat

/-- Modelled from the spec: `RegionRc::alloc` — a fresh object is appended to
the region's object list with reference count 1 and zeroed (empty) fields. -/
def RcState.alloc (s : RcState) (o : Nat) : RcState :=
  { s with objs := s.objs ++ [o],
           counts := Function.update s.counts o 1,
           fields := Function.update s.fields o [] }

/-- A plain field store `o.f = ...`: the runtime does not intercept it, the
mutator simply overwrites the object's out-edges. -/
def RcState.setFields (s : RcState) (o : Nat) (fs : List Nat) : RcState :=
  { s with fields := Function.update s.fields o fs }

/-- Modelled from the spec: `RegionRc::incref` increments the object's
reference count. -/
def RcState.incref (s : RcState) (o : Nat) : RcState :=
  { s with counts := Function.update s.counts o (s.counts o + 1) }

/-- Modelled from the spec: deallocation of one Rc object during `decref` —
the object is unlinked from the region's object list and removed from the
suspicious set before its memory is reused. -/
def RcState.deallocObj (s : RcState) (o : Nat) : RcState :=
  { s with objs := s.objs.erase o,
           lins := s.lins.filter fun x => x ≠ o,
           counts := Function.update s.counts o 0 }

/-- Modelled from the spec: the iterative worklist of `RegionRc::decref`.
Each worklist entry is one pending decrement.  A decrement that drives the
count to zero deallocates the object and queues its out-edges for transitive
decrement; a decrement that leaves the count positive pushes the object onto
the suspicious stack if it is not already tracked.  The fuel argument bounds
the number of worklist steps; `RcState.decref` supplies enough. -/
def decrefLoop : Nat → RcState → List Nat → RcState
  | _, s, [] => s
  | 0, s, _ :: _ => s
  | fuel + 1, s, o :: rest =>
    if o ∈ s.objs then
      if s.counts o ≤ 1 then
        decrefLoop fuel (s.deallocObj o) (s.fields o ++ rest)
      else
        let s1 := { s with counts := Function.update s.counts o (s.counts o - 1) }
        decrefLoop fuel
          (if o ∈ s1.lins then s1 else { s1 with lins := o :: s1.lins }) rest
    else
      decrefLoop fuel s rest

/-- A worklist-step bound ample for any cascade starting from one decrement:
every step removes an object, lowers a count, or drops a stale entry. -/
def RcState.fuelBound (s : RcState) : Nat :=
  (s.objs.map s.counts).sum + (s.objs.map fun o => (s.fields o).length).sum
    + s.objs.length + 1

/-- Modelled from the spec: `RegionRc::decref`. -/
def RcState.decref (s : RcState) (o : Nat) : RcState :=
  decrefLoop s.fuelBound s [o]

/-- Number of edges from objects of `S` into `v`, counting multiplicity (an
object whose two fields both hold `v` contributes two). -/
def countEdgesFrom (S : Finset ℕ) (fields : Nat → List Nat) (v : Nat) : Nat :=
  ∑ u ∈ S, (fields u).count v

/-- Modelled from the spec: one root of Lins's cycle collector
(`RegionRc::gc_cycles`, implementation not under the source tree).
Mark-red visits everything reachable from the suspicious root along the
out-edges, decrementing each target once per traversed edge (the red set;
the DFS plus jump stack of the spec compute the same subgraph).  Scan colours
green every red object whose trial count stayed positive and restores —
re-increments along edges from green objects — everything they reach.
Objects still red are garbage: they are unlinked from the region, their
counts drop to zero, and their out-edges are decremented. -/
def processRoot (s : RcState) (root : Nat) : RcState :=
  if root ∈ s.objs then
    let n := s.objs.length + 1
    let red := reachSet s.fields {root} n
    let trial := fun v => s.counts v - countEdgesFrom red s.fields v
    let anchors := red.filter fun v => 0 < trial v
    let green := reachSet s.fields anchors n
    let garbage := red \ green
    { objs := s.objs.filter fun o => decide (o ∉ garbage),
      counts := fun v =>
        if v ∈ garbage then 0
        else s.counts v - countEdgesFrom garbage s.fields v,
      fields := s.fields,
      lins := s.lins }
  else s

/-- Modelled from the spec: `RegionRc::gc_cycles` — Lins's synchronous cycle
collector processes every suspicious root in stack order (roots already
deallocated are skipped) and leaves the suspicious set empty. -/
def RcState.gc_cycles (s : RcState) : RcState :=
  { s.lins.foldl processRoot s with lins := [] }

/-- A fresh Rc region whose entry point is `e` with reference count 1. -/
def rcInit (e : Nat) : RcState :=
  { objs := [e],
    counts := Function.update (fun _ => 0) e 1,
    fields := fun _ => [],
    lins := [] }

/-- The §8 scenario S5 state right before `region_collect`
(`test_deallocated_lins_stack_elem` in the source tests): entry `0`,
`n1 = 1`, `n2 = 2`; build `o.f1 = o.f2 = n1`, `incref n1`, `n1.f1 = n2`;
then `o.f1 = null; decref n1` (n1 is left with count 1 and suspicious);
then `o.f2 = n2; incref n2; decref n1` (n1 deallocates and its cascade
decrements n2). -/
def c5_state : RcState :=
  (((((((((rcInit 0).alloc 1).alloc 2).setFields 0 [1, 1]).incref 1).setFields
      1 [2]).setFields 0 [1]).decref 1).setFields 0 [2]).incref 2
    |>.decref 1

/-- The S5 state after `region_collect`. -/
def c5_final : RcState := c5_state.gc_cycles

/-- C5: in scenario S5 the second `decref n1` deallocates `n1` (leaving the
region with the two objects `0` and `2`), and `region_collect` does not free
`n2 = 2`, which is still reachable from the entry: `debug_size` is 2 both
before and after the collection and `2` is still allocated. -/
theorem c5_dealloc_lins_stack_elem :
    c5_state.objs = [0, 2] ∧ c5_state.objs.length = 2 ∧
      c5_final.objs = [0, 2] ∧ 2 ∈ c5_final.objs ∧
      c5_final.objs.length = 2 := by decide

/-- The §8 scenario S3 state right before `region_collect`
(`cycles_rc::test_self_cycle` in the source tests): entry `0`, `o1 = 1` with
the self-edge `o1.f1 = o1`, marked suspicious by `incref o1; decref o1`. -/
def c6_before : RcState :=
  ((((rcInit 0).alloc 1).setFields 1 [1]).incref 1).decref 1

/-- The S3 state after `region_collect`. -/
def c6_after : RcState := c6_before.gc_cycles

/-- C6: in the self-cycle scenario `debug_size` is 2 (entry plus `o1`)
before `region_collect` and 1 afterwards — the suspicious self-loop is
collected and only the entry point remains. -/
theorem c6_self_cycle_collected :
    c6_before.objs.length = 2 ∧ 1 ∈ c6_before.lins ∧
      c6_after.objs = [0] ∧ c6_after.objs.length = 1 := by decide

/-- C9: for an allocated object with reference count at least 1,
`incref; decref` is an identity on the reference count, does not free the
object, and leaves the region's object list (hence `debug_size`) unchanged. -/
theorem c9_incref_decref_identity (s : RcState) (o : Nat)
    (ho : o ∈ s.objs) (hc : 1 ≤ s.counts o) :
    ((s.incref o).decref o).counts o = s.counts o ∧
      ((s.incref o).decref o).objs = s.objs ∧
      o ∈ ((s.incref o).decref o).objs ∧
      ((s.incref o).decref o).objs.length = s.objs.length := by
  have hobjs : (s.incref o).objs = s.objs := rfl
  have hcnt : (s.incref o).counts o = s.counts o + 1 := by
    simp [RcState.incref]
  have hfuel : ∃ k, (s.incref o).fuelBound = k + 1 := ⟨_, rfl⟩
  obtain ⟨k, hk⟩ := hfuel
  have hnotle : ¬ (s.incref o).counts o ≤ 1 := by omega
  have hdone : ∀ x : RcState, decrefLoop k x [] = x := by
    intro x
    cases k <;> rfl
  have hmain : (s.incref o).decref o =
      (let s1 : RcState := { s.incref o with
          counts := Function.update (s.incref o).counts o
            ((s.incref o).counts o - 1) }
      if o ∈ s1.lins then s1 else { s1 with lins := o :: s1.lins }) := by
    rw [RcState.decref, hk]
    show decrefLoop (k + 1) (s.incref o) [o] = _
    rw [decrefLoop, if_pos (hobjs ▸ ho), if_neg hnotle, hdone]
  rw [hmain]
  dsimp only
  refine ⟨?_, ?_, ?_, ?_⟩
  · split
    · show Function.update (s.incref o).counts o ((s.incref o).counts o - 1) o
          = s.counts o
      rw [Function.update_same]
      omega
    · show Function.update (s.incref o).counts o ((s.incref o).counts o - 1) o
          = s.counts o
      rw [Function.update_same]
      omega
  · split <;> rfl
  · split <;> exact ho
  · split <;> rfl

theorem c9_incref_decref_identity_witness :
    (0 ∈ (rcInit 0).objs ∧ 1 ≤ (rcInit 0).counts 0) ∧
      (((rcInit 0).incref 0).decref 0).counts 0 = (rcInit 0).counts 0 ∧
        (((rcInit 0).incref 0).decref 0).objs = (rcInit 0).objs ∧
        0 ∈ (((rcInit 0).incref 0).decref 0).objs ∧
        (((rcInit 0).incref 0).decref 0).objs.length
          = (rcInit 0).objs.length :=
  ⟨⟨by decide, by decide⟩,
    c9_incref_decref_identity (rcInit 0) 0 (by decide) (by decide)⟩

end VeronaGc
